import Mathlib

/-!
Verification of the spaces repository: a shallow embedding of its
configuration parsers, providers and execution driver, together with
theorems settling the specification claims.

Part 1 models src/config_reader/parser.py (CascadingConfigParser):
section names are ordered label lists (the Python code keeps them as
space separated strings and strips the last label with rsplit, which on
a label list is dropLast; a name with at most one label is left
unchanged, matching rsplit returning the string itself when it holds no
space).
-/

/-- A hierarchical section name: the ordered sequence of labels. -/
abbrev SectName := List String

/-- State of the wrapped RawConfigParser: the sections, each holding an
ordered option list. -/
structure RawCfg where
  sections : List (SectName × List (String × String))

/-- Lookup of a section in the underlying parser. -/
def RawCfg.find? (c : RawCfg) (s : SectName) : Option (List (String × String)) :=
  (c.sections.find? (fun p => p.1 == s)).map Prod.snd

/-- has_section of the underlying parser. -/
def RawCfg.hasSection (c : RawCfg) (s : SectName) : Bool :=
  (c.find? s).isSome

/-- Errors raised by the config_reader parser module: NoSectionError and
NoOptionError of ConfigParser, and the custom cascading NoOptionError of
parser.py whose payload carries the option, the original section and the
parent sections consulted. -/
inductive CErr where
  | noSection (s : SectName)
  | noOption (s : SectName) (o : String)
  | cascNoOption (o : String) (s : SectName) (parents : List SectName)
deriving DecidableEq

/-- RawConfigParser.get: exact section and option lookup, no cascading. -/
def rawGet (c : RawCfg) (s : SectName) (o : String) : Except CErr String :=
  match c.find? s with
  | none => .error (.noSection s)
  | some opts =>
    match opts.lookup o with
    | some v => .ok v
    | none => .error (.noOption s o)

/-- The while loop of CascadingConfigParser.get: strip the last label,
record the parent, retry, and after exhausting the name raise the custom
NoOptionError listing every parent consulted.  The Nat argument is
structural fuel; the wrapper below passes the label count, which the
loop can never exhaust early since every iteration strips one label. -/
def cascadeLoopF (c : RawCfg) (o : String) (orig : SectName) :
    Nat → SectName → List SectName → Except CErr String
  | 0, _, acc => .error (.cascNoOption o orig acc)
  | fuel + 1, s, acc =>
    if s.length ≤ 1 then .error (.cascNoOption o orig acc)
    else
      match rawGet c s.dropLast o with
      | .ok v => .ok v
      | .error _ => cascadeLoopF c o orig fuel s.dropLast (acc ++ [s.dropLast])

/-- CascadingConfigParser.get: exact match first; a NoSectionError from
the exact lookup propagates (only NoOptionError is caught); on a missing
option, without cascade the original error is re-raised, with cascade
the parent sections are consulted nearest first. -/
def ccpGet (c : RawCfg) (s : SectName) (o : String) (cascade : Bool) :
    Except CErr String :=
  match rawGet c s o with
  | .ok v => .ok v
  | .error e =>
    match e with
    | .noOption _ _ =>
      if cascade then cascadeLoopF c o s s.length s [] else .error e
    | _ => .error e

/-- The loop of CascadingConfigParser.items with cascade: the key set is
frozen from the queried section itself; each ancestor appends its items
whose key is not among those frozen keys; a missing ancestor section is
skipped. -/
def itemsLoopF (c : RawCfg) (keys : List String) :
    Nat → SectName → List (String × String) → List (String × String)
  | 0, _, acc => acc
  | fuel + 1, s, acc =>
    if s.length ≤ 1 then acc
    else
      itemsLoopF c keys fuel s.dropLast
        (match c.find? s.dropLast with
         | none => acc
         | some its => acc ++ its.filter (fun p => !(keys.contains p.1)))

/-- CascadingConfigParser.items. -/
def ccpItems (c : RawCfg) (s : SectName) (cascade : Bool) :
    Except CErr (List (String × String)) :=
  match c.find? s with
  | none => .error (.noSection s)
  | some own =>
    if cascade then .ok (itemsLoopF c (own.map Prod.fst) s.length s own)
    else .ok own

/-!
Specification-side definitions for claim C3, written from the claim
wording: the ancestors of a section are obtained by repeatedly stripping
the last label, nearest first; cascading lookup returns the value at the
nearest ancestor defining the option, and otherwise fails with an error
naming the original section and every ancestor consulted.
-/

/-- The ancestor chain of a section name, nearest first, one last label
stripped at each step (fueled structurally by the label count). -/
def ancestorsOfF : Nat → SectName → List SectName
  | 0, _ => []
  | fuel + 1, s =>
    if s.length ≤ 1 then [] else s.dropLast :: ancestorsOfF fuel s.dropLast

/-- The ancestors consulted for a section name, nearest first. -/
def ancestorsOf (s : SectName) : List SectName :=
  ancestorsOfF s.length s

/-- The value of an option at the first section of a list that defines
it, or a fixed error when none does. -/
def firstDefined (c : RawCfg) (o : String) (err : CErr) :
    List SectName → Except CErr String
  | [] => .error err
  | a :: rest =>
    match rawGet c a o with
    | .ok v => .ok v
    | .error _ => firstDefined c o err rest

/-- Cascading lookup as the claim words it: the exact section first,
then the nearest ancestor defining the option, else a no-such-option
error naming the original section and every ancestor consulted. -/
def specCascGet (c : RawCfg) (s : SectName) (o : String) : Except CErr String :=
  match rawGet c s o with
  | .ok v => .ok v
  | .error _ =>
    firstDefined c o (.cascNoOption o s (ancestorsOf s)) (ancestorsOf s)

theorem cascadeLoopF_eq_firstDefined (c : RawCfg) (o : String) (orig : SectName) :
    ∀ fuel (s : SectName) (acc : List SectName), s.length ≤ fuel + 1 →
      cascadeLoopF c o orig fuel s acc =
        firstDefined c o (.cascNoOption o orig (acc ++ ancestorsOfF fuel s))
          (ancestorsOfF fuel s) := by
  intro fuel
  induction fuel with
  | zero =>
    intro s acc _
    simp [cascadeLoopF, ancestorsOfF, firstDefined]
  | succ fuel ih =>
    intro s acc hlen
    by_cases h1 : s.length ≤ 1
    · simp [cascadeLoopF, ancestorsOfF, h1, firstDefined]
    · simp only [cascadeLoopF, ancestorsOfF, h1, if_false, firstDefined]
      cases hraw : rawGet c s.dropLast o with
      | ok v => simp [hraw]
      | error e =>
        simp only [hraw]
        rw [ih s.dropLast (acc ++ [s.dropLast])
          (by simp [List.length_dropLast]; omega)]
        simp

/-- C3: for every existing section s and option o, cascading get agrees
with the specification-side cascading lookup (exact match first, then
the nearest ancestor defining o, else the no-such-option error naming s
and every ancestor consulted); and with cascade off, a missing option
fails with the plain parser error naming s, no ancestor consulted. -/
theorem claim3_cascading_get (c : RawCfg) (s : SectName) (o : String)
    (hs : c.hasSection s = true) :
    ccpGet c s o true = specCascGet c s o ∧
    (∀ v, rawGet c s o = .ok v → ccpGet c s o true = .ok v) ∧
    (rawGet c s o = .error (.noOption s o) →
      ccpGet c s o false = .error (.noOption s o)) := by
  have hfind : ∃ opts, c.find? s = some opts := by
    unfold RawCfg.hasSection at hs
    cases hf : c.find? s with
    | none => rw [hf] at hs; simp [Option.isSome] at hs
    | some opts => exact ⟨opts, rfl⟩
  obtain ⟨opts, hf⟩ := hfind
  refine ⟨?_, ?_, ?_⟩
  · unfold ccpGet specCascGet
    cases hraw : rawGet c s o with
    | ok v => simp
    | error e =>
      have he : e = .noOption s o := by
        unfold rawGet at hraw
        rw [hf] at hraw
        cases hl : opts.lookup o with
        | some v => simp [hl] at hraw
        | none => simp [hl] at hraw; exact hraw.symm
      subst he
      simp only [if_true]
      rw [cascadeLoopF_eq_firstDefined c o s s.length s [] (by omega)]
      simp [ancestorsOf]
  · intro v hraw
    unfold ccpGet
    rw [hraw]
  · intro hraw
    unfold ccpGet
    rw [hraw]
    simp

/-- The configuration of the specification example: section a b c exists
and only section a defines x. -/
def c3cfg : RawCfg :=
  ⟨[(["a", "b", "c"], [("z", "0")]), (["a"], [("x", "1")])]⟩

theorem claim3_cascading_get_witness :
    c3cfg.hasSection ["a", "b", "c"] = true ∧
    ccpGet c3cfg ["a", "b", "c"] "x" true = specCascGet c3cfg ["a", "b", "c"] "x" ∧
    ccpGet c3cfg ["a", "b", "c"] "x" true = .ok "1" ∧
    ccpGet c3cfg ["a", "b", "c"] "x" false = .error (.noOption ["a", "b", "c"] "x") :=
  ⟨by decide, (claim3_cascading_get c3cfg ["a", "b", "c"] "x" (by decide)).1,
   by rfl, by rfl⟩

/-- C10: when the queried section itself does not exist, cascading get
raises the missing-section error at once, consulting no ancestor. -/
theorem claim10_missing_section (c : RawCfg) (s : SectName) (o : String)
    (hs : c.hasSection s = false) :
    ccpGet c s o true = .error (.noSection s) := by
  have hf : c.find? s = none := by
    unfold RawCfg.hasSection at hs
    cases hf : c.find? s with
    | none => rfl
    | some opts => rw [hf] at hs; simp [Option.isSome] at hs
  unfold ccpGet rawGet
  rw [hf]

/-- A configuration where an ancestor of the queried name exists and
defines the option, yet the queried section itself is missing. -/
def c10cfg : RawCfg := ⟨[(["a"], [("x", "1")])]⟩

theorem claim10_missing_section_witness :
    c10cfg.hasSection ["a", "b"] = false ∧
    c10cfg.hasSection ["a"] = true ∧
    rawGet c10cfg ["a"] "x" = .ok "1" ∧
    ccpGet c10cfg ["a", "b"] "x" true = .error (.noSection ["a", "b"]) :=
  ⟨by decide, by decide, by rfl,
   claim10_missing_section c10cfg ["a", "b"] "x" (by decide)⟩

theorem itemsLoopF_filter_frozen (c : RawCfg) (keys : List String) (k : String)
    (hk : keys.contains k = true) :
    ∀ fuel (s : SectName) (acc : List (String × String)),
      (itemsLoopF c keys fuel s acc).filter (fun p => p.1 == k) =
        acc.filter (fun p => p.1 == k) := by
  intro fuel
  induction fuel with
  | zero => intro s acc; simp [itemsLoopF]
  | succ fuel ih =>
    intro s acc
    by_cases h1 : s.length ≤ 1
    · simp [itemsLoopF, h1]
    · simp only [itemsLoopF, h1, if_false]
      cases hf : c.find? s.dropLast with
      | none => simp [hf, ih]
      | some its =>
        simp only [hf]
        rw [ih, List.filter_append]
        have hnil : (its.filter (fun p => !(keys.contains p.1))).filter
            (fun p => p.1 == k) = [] := by
          apply List.filter_eq_nil_iff.mpr
          intro p hp hpk
          have hnc := (List.mem_filter.mp hp).2
          have hpk' : p.1 = k := eq_of_beq hpk
          rw [hpk', hk] at hnc
          simp at hnc
        rw [hnil, List.append_nil]

/-- The configuration refuting C4 as stated: the queried section a b c
does not define y, while both ancestors a b and a do. -/
def c4cfg : RawCfg :=
  ⟨[(["a"], [("y", "3")]), (["a", "b"], [("y", "2")]), (["a", "b", "c"], [("z", "1")])]⟩

/-- C4 counterexample: items with cascade can return the same key twice,
once per defining ancestor, because the frozen key set holds only the
keys of the queried section itself; here y appears with both the value
2 of the nearer ancestor and the value 3 of the farther one. -/
theorem claim4_items_counterexample :
    ccpItems c4cfg ["a", "b", "c"] true =
      .ok [("z", "1"), ("y", "2"), ("y", "3")] ∧
    (((itemsLoopF c4cfg ["z"] 3 ["a", "b", "c"] [("z", "1")]).map Prod.fst).count "y") = 2 :=
  ⟨by rfl, by rfl⟩

/-- C4 amended: a key defined in the queried section itself is never
overwritten by, or duplicated with, an ancestor value: the entries of
items with cascade that carry such a key are exactly the entries of the
queried section itself.  (A key absent from the queried section may
still appear once per defining ancestor, nearest first, as the
counterexample shows.) -/
theorem claim4_items_amended (c : RawCfg) (s : SectName)
    (own res : List (String × String)) (k : String)
    (hf : c.find? s = some own) (hk : k ∈ own.map Prod.fst)
    (hres : ccpItems c s true = .ok res) :
    res.filter (fun p => p.1 == k) = own.filter (fun p => p.1 == k) := by
  unfold ccpItems at hres
  rw [hf] at hres
  simp only [if_true] at hres
  have hres' : itemsLoopF c (own.map Prod.fst) s.length s own = res := by
    cases hres; rfl
  rw [← hres']
  exact itemsLoopF_filter_frozen c (own.map Prod.fst) k
    (List.elem_iff.mpr hk) s.length s own

/-- The configuration of the specification example for C4: section a b
defines y as 2 and ancestor a defines y as 3. -/
def c4cfg2 : RawCfg := ⟨[(["a"], [("y", "3")]), (["a", "b"], [("y", "2")])]⟩

theorem claim4_items_amended_witness :
    ccpItems c4cfg2 ["a", "b"] true = .ok [("y", "2")] ∧
    ([("z", "1"), ("y", "2"), ("y", "3")] : List (String × String)).filter
        (fun p => p.1 == "z") =
      ([("z", "1")] : List (String × String)).filter (fun p => p.1 == "z") :=
  ⟨by rfl, claim4_items_amended c4cfg ["a", "b", "c"] [("z", "1")]
    [("z", "1"), ("y", "2"), ("y", "3")] "z" (by rfl) (by decide) (by rfl)⟩

/-!
Part 2 models src/providers/providers.py: the step triples produced by
PipProvider (a PkgProvider) and the concrete-implementation selection of
PkgProvider at construction.
-/

/-- A step triple (test, primary action, alternate action); a Python
None component is modelled by none. -/
structure Step where
  test : Option String
  primary : Option String
  alternate : Option String
deriving DecidableEq

/-- PipProvider, one package: a per-package probe as the test and a
per-package install as the alternate action; a missing or empty version
(Python falsy) selects the unversioned commands. -/
def pipProvideOne (name : String) (version : Option String) : Step :=
  match version with
  | some v =>
    if v = "" then
      ⟨some ("pip freeze | grep " ++ name), none, some ("pip install " ++ name)⟩
    else
      ⟨some ("pip freeze | grep " ++ name ++ "==" ++ v), none,
       some ("pip install " ++ name ++ "==" ++ v)⟩
  | none => ⟨some ("pip freeze | grep " ++ name), none, some ("pip install " ++ name)⟩

/-- Lexicographic strict comparison of char lists, written structurally
so that it evaluates inside the kernel (the library order on String is
defined through an iterator function that does not reduce). -/
def charListLtB : List Char → List Char → Bool
  | [], [] => false
  | [], _ :: _ => true
  | _ :: _, [] => false
  | a :: as, b :: bs =>
    if a < b then true else if b < a then false else charListLtB as bs

/-- Boolean string order: a is at most b. -/
def strLeB (a b : String) : Bool := !(charListLtB b.data a.data)

/-- The propositional form of strLeB, used as the sorting relation. -/
def strLe (a b : String) : Prop := strLeB a b = true

instance : DecidableRel strLe := fun a b => by unfold strLe; infer_instance

/-- Python sorted on strings: ascending lexicographic order. -/
def sortStrings (l : List String) : List String :=
  List.insertionSort strLe l

/-- Dictionary access self.packages[pkg]. -/
def dictGet (ps : List (String × Option String)) (k : String) : Option String :=
  match ps.lookup k with
  | some v => v
  | none => none

/-- PkgProvider.provide for the pip implementation: one step appended
per package, iterating the package names in sorted order. -/
def pkgProvide (packages : List (String × Option String)) : List Step :=
  (sortStrings (packages.map Prod.fst)).map (fun k => pipProvideOne k (dictGet packages k))

/-- The desired package map refuting C2 as stated. -/
def c2pkgs : List (String × Option String) :=
  [("b", none), ("a", none), ("c", some "1.0")]

/-- C2 counterexample: for a three-package map, provide emits three
steps, each with its own per-package probe as its test and its own
install command as its alternate: three distinct install invocations and
three distinct probes, not a single probe followed by one batched
install command and one batched upgrade command. -/
theorem claim2_pkg_batching_counterexample :
    pkgProvide c2pkgs =
      [⟨some "pip freeze | grep a", none, some "pip install a"⟩,
       ⟨some "pip freeze | grep b", none, some "pip install b"⟩,
       ⟨some "pip freeze | grep c==1.0", none, some "pip install c==1.0"⟩] ∧
    ((pkgProvide c2pkgs).filterMap Step.alternate).length = 3 ∧
    ((pkgProvide c2pkgs).filterMap Step.test).length = 3 :=
  ⟨by rfl, by rfl, by rfl⟩

theorem lookup_eq_of_mem_of_nodup {ps : List (String × Option String)}
    {n : String} {v : Option String}
    (hnd : (ps.map Prod.fst).Nodup) (hm : (n, v) ∈ ps) :
    ps.lookup n = some v := by
  induction ps with
  | nil => simp at hm
  | cons hd tl ih =>
    simp only [List.map_cons, List.nodup_cons] at hnd
    cases List.mem_cons.mp hm with
    | inl heq =>
      subst heq
      simp [List.lookup]
    | inr htl =>
      obtain ⟨k0, v0⟩ := hd
      have hne : (n == k0) = false := by
        rw [beq_eq_false_iff_ne]
        intro heq2
        have hmem : n ∈ tl.map Prod.fst := List.mem_map_of_mem Prod.fst htl
        rw [heq2] at hmem
        exact hnd.1 hmem
      simp only [List.lookup, hne]
      exact ih hnd.2 htl

/-- C2 amended: for a desired package map with distinct names, provide
emits exactly one step per package (so the number of shell steps grows
with the package count), and the steps are exactly the per-package
probe/install triples of the pip implementation; there is no initial
probe command and no batched invocation. -/
theorem claim2_pkg_per_package (packages : List (String × Option String))
    (hnd : (packages.map Prod.fst).Nodup) :
    (pkgProvide packages).length = packages.length ∧
    ∀ s, s ∈ pkgProvide packages ↔
      ∃ nv, nv ∈ packages ∧ s = pipProvideOne nv.1 nv.2 := by
  constructor
  · unfold pkgProvide sortStrings
    rw [List.length_map, List.length_insertionSort, List.length_map]
  · intro s
    unfold pkgProvide
    rw [List.mem_map]
    constructor
    · rintro ⟨k, hk, rfl⟩
      have hk' : k ∈ packages.map Prod.fst :=
        (List.Perm.mem_iff (List.perm_insertionSort _ _)).mp hk
      obtain ⟨nv, hnv, rfl⟩ := List.mem_map.mp hk'
      refine ⟨nv, hnv, ?_⟩
      have : dictGet packages nv.1 = nv.2 := by
        unfold dictGet
        rw [lookup_eq_of_mem_of_nodup hnd hnv]
      rw [this]
    · rintro ⟨nv, hnv, rfl⟩
      refine ⟨nv.1, ?_, ?_⟩
      · apply (List.Perm.mem_iff (List.perm_insertionSort _ _)).mpr
        exact List.mem_map_of_mem Prod.fst hnv
      · have : dictGet packages nv.1 = nv.2 := by
          unfold dictGet
          rw [lookup_eq_of_mem_of_nodup hnd hnv]
        rw [this]

theorem claim2_pkg_per_package_witness :
    (c2pkgs.map Prod.fst).Nodup ∧ (pkgProvide c2pkgs).length = 3 :=
  ⟨by decide, (claim2_pkg_per_package c2pkgs (by decide)).1⟩

/-- A concrete package-provider implementation, as the selection in
PkgProvider sees it: a name and the compatible_platform probe, a
function of the platform distribution string. -/
structure PkgImplM where
  implName : String
  compatOn : String → Bool

/-- DebPkgProvider.compatible_platform: the lowercased distribution name
equals debian. -/
def debCompatOn (dist : String) : Bool := dist.toLower == "debian"

/-- RpmPkgProvider.compatible_platform: the lowercased distribution name
equals redhat. -/
def rpmCompatOn (dist : String) : Bool := dist.toLower == "redhat"

/-- The registered concrete implementations: the source adds only
DebPkgProvider to PkgProvider.concrete_implementations (the add for
RpmPkgProvider is absent). -/
def registeredImpls : List PkgImplM := [⟨"DebPkgProvider", debCompatOn⟩]

/-- The two distinct construction-time errors of PkgProvider. -/
inductive NewErr where
  | noConcrete
  | multipleConcrete
deriving DecidableEq

/-- PkgProvider construction: filter the registered implementations by
their platform probe; fewer than one candidate raises the no-concrete
error, more than one the more-than-one error, and otherwise the first
(only) candidate is instantiated. -/
def pkgProviderNew (impls : List PkgImplM) (dist : String) : Except NewErr PkgImplM :=
  let candidates := impls.filter (fun i => i.compatOn dist)
  if candidates.length < 1 then .error .noConcrete
  else if 1 < candidates.length then .error .multipleConcrete
  else
    match candidates with
    | [] => .error .noConcrete
    | c :: _ => .ok c

/-- C8: construction selects among the registered implementations those
whose platform probe succeeds; with exactly one compatible candidate it
returns that candidate, with zero it fails with the no-concrete error
and with more than one it fails with the distinct more-than-one
error. -/
theorem claim8_concrete_selection (impls : List PkgImplM) (dist : String) :
    pkgProviderNew impls dist =
      match impls.filter (fun i => i.compatOn dist) with
      | [] => .error .noConcrete
      | [c] => .ok c
      | _ :: _ :: _ => .error .multipleConcrete := by
  unfold pkgProviderNew
  cases hc : impls.filter (fun i => i.compatOn dist) with
  | nil => simp
  | cons c rest =>
    cases rest with
    | nil => simp
    | cons c2 rest2 => simp

/-!
Part 3 models src/spaces.py: parse_result and SpaceState.dispense, the
Execution Driver exposed over the connection-oriented wire protocol.
Python generators are modelled as deterministic resumable computations:
a function from the list of outcomes received so far to the next yielded
command (none meaning StopIteration).
-/

/-- The outcome of an executed command as parse_result returns it:
status string, stdout lines, stderr lines. -/
structure Outcome where
  status : String
  stdoutLines : List String
  stderrLines : List String
deriving DecidableEq

/-- The crashes parse_result can raise: KeyError(None) when a payload
line arrives before any STDOUT/STDERR header, KeyError for a missing
STATUS/STDOUT/STDERR part at the end, and IndexError when a STATUS line
has no argument. -/
inductive PErr where
  | keyNone
  | keyStatus
  | keyStdout
  | keyStderr
  | indexErr
deriving DecidableEq

/-- Which block subsequent bare lines are appended to. -/
inductive Ctx where
  | out
  | err
deriving DecidableEq

/-- Mutable parts dictionary of parse_result. -/
structure PRParts where
  status : Option String
  so : Option (List String)
  se : Option (List String)
  ctx : Option Ctx

/-- Prefix test on the character lists; the library String.startsWith
runs over byte positions and does not reduce in the kernel. -/
def pyStartsWith (s pre : String) : Bool := pre.data.isPrefixOf s.data

/-- Python str.split(sep) on character lists, keeping empty pieces. -/
def splitOnCharList (sep : Char) : List Char → List (List Char)
  | [] => [[]]
  | c :: rest =>
    if c = sep then [] :: splitOnCharList sep rest
    else
      match splitOnCharList sep rest with
      | [] => [[c]]
      | h :: t => (c :: h) :: t

/-- data.split with a one-character separator, as a String function. -/
def pySplit (sep : Char) (s : String) : List String :=
  (splitOnCharList sep s.data).map String.mk

/-- Python str.strip(): drop whitespace from both ends. -/
def pyStrip (s : String) : String :=
  String.mk (((s.data.dropWhile Char.isWhitespace).reverse.dropWhile
    Char.isWhitespace).reverse)

/-- The remainder of a list after the first occurrence of a separator,
or none when the separator is absent. -/
def afterFirstChar (sep : Char) : List Char → Option (List Char)
  | [] => none
  | c :: rest => if c = sep then some rest else afterFirstChar sep rest

/-- line.split(" ", 1)[1]: the remainder after the first space, or an
IndexError when the line holds no space. -/
def splitOnceSpace (line : String) : Option String :=
  (afterFirstChar ' ' line.data).map String.mk

/-- The line loop of parse_result. -/
def parseLines : PRParts → List String → Except PErr PRParts
  | parts, [] => .ok parts
  | parts, line :: rest =>
    if pyStartsWith line "STATUS" then
      match splitOnceSpace line with
      | none => .error .indexErr
      | some arg => parseLines { parts with status := some (pyStrip arg) } rest
    else if pyStartsWith line "STDOUT" then
      parseLines { parts with so := some [], ctx := some .out } rest
    else if pyStartsWith line "STDERR" then
      parseLines { parts with se := some [], ctx := some .err } rest
    else
      match parts.ctx with
      | none => .error .keyNone
      | some .out =>
        parseLines { parts with so := some ((parts.so.getD []) ++ [line]) } rest
      | some .err =>
        parseLines { parts with se := some ((parts.se.getD []) ++ [line]) } rest

/-- parse_result: split on newlines, fill the parts, then read STATUS,
STDOUT and STDERR, each raising KeyError when missing. -/
def parseResult (data : String) : Except PErr Outcome := do
  let parts ← parseLines ⟨none, none, none, none⟩ (pySplit (Char.ofNat 10) data)
  match parts.status with
  | none => .error .keyStatus
  | some st =>
    match parts.so with
    | none => .error .keyStdout
    | some so =>
      match parts.se with
      | none => .error .keyStderr
      | some se => .ok ⟨st, so, se⟩

/-- A Python generator of command strings, deterministically determined
by the outcomes sent into it so far: run gives the next yielded command
after the given outcome history, or none for StopIteration. -/
structure PyGen where
  run : List Outcome → Option String

/-- The provisioning mode of a session. -/
inductive Mode where
  | provide
  | revert
deriving DecidableEq

/-- One provider as the driver sees it: per-mode method docstring and
per-mode generator. -/
structure ProviderM where
  docOf : Mode → String
  genOf : Mode → PyGen

/-- The per-session fields of SpaceState set by dispense: the remaining
provider iterator, the current provider, the current generator with its
outcome history, and the provisioning mode. -/
structure Sess where
  pending : List ProviderM
  currProv : Option ProviderM
  currGen : Option (PyGen × List Outcome)
  ptype : Mode

/-- SpaceState: the full provider list plus the session fields, which
are unset (AttributeError on use) until the first PROVIDE or REVERT. -/
structure SS where
  providers : List ProviderM
  sess : Option Sess

/-- The errors dispense can crash with: AttributeError when no session
was begun, the KeyError or IndexError crashes of parse_result, an
uncaught StopIteration from a generator that yields nothing, and fuel
exhaustion of the model (unreachable, the self-recursion depth of
dispense is at most one). -/
inductive DErr where
  | attrError
  | parseKey (e : PErr)
  | stopIter
  | fuelOut
deriving DecidableEq

/-- When no provider is current, advance the provider iterator; none
means the iterator is exhausted (dispense answers END). -/
def advanceProv (s : Sess) : Option Sess :=
  match s.currProv with
  | some _ => some s
  | none =>
    match s.pending with
    | [] => none
    | p :: rest => some { s with pending := rest, currProv := some p }

/-- SpaceState.dispense: a PROVIDE/REVERT prefix resets the session;
with no current provider the iterator advances (END when exhausted);
with no current generator the provider method for the session mode is
started and its first command is returned framed as DESC then CMD; with
a suspended generator the request payload is parsed as the previous
outcome and sent in, and the yielded command is returned bare; on
StopIteration the provider is cleared and dispense recurses on the same
payload. -/
def dispense : Nat → SS → String → Except DErr (String × SS)
  | 0, _, _ => .error .fuelOut
  | fuel + 1, st0, data =>
    let st :=
      if pyStartsWith data "PROVIDE" then
        { st0 with sess := some ⟨st0.providers, none, none, Mode.provide⟩ }
      else if pyStartsWith data "REVERT" then
        { st0 with sess := some ⟨st0.providers, none, none, Mode.revert⟩ }
      else st0
    match st.sess with
    | none => .error .attrError
    | some s0 =>
      match advanceProv s0 with
      | none => .ok ("END", st)
      | some s1 =>
        match s1.currGen with
        | none =>
          match s1.currProv with
          | none => .error .attrError
          | some p =>
            let g := p.genOf s1.ptype
            match g.run [] with
            | none => .error .stopIter
            | some cmd =>
              .ok ("DESC " ++ p.docOf s1.ptype ++ "\n\nCMD " ++ cmd,
                   { st with sess := some { s1 with currGen := some (g, []) } })
        | some (g, hist) =>
          match parseResult data with
          | .error e => .error (.parseKey e)
          | .ok outc =>
            match g.run (hist ++ [outc]) with
            | some cmd =>
              .ok (cmd,
                   { st with sess := some { s1 with currGen := some (g, hist ++ [outc]) } })
            | none =>
              dispense fuel
                { st with sess := some { s1 with currProv := none, currGen := none } }
                data

/-- A concrete two-step generator: first command, then after one
outcome a second command, then StopIteration. -/
def gen1 : PyGen :=
  ⟨fun hist =>
    match hist with
    | [] => some "cmd-one"
    | [_] => some "cmd-two"
    | _ => none⟩

/-- A concrete provider running gen1 in both modes. -/
def prov1 : ProviderM := ⟨fun _ => "docstring", fun _ => gen1⟩

/-- A SpaceState holding the single provider prov1, before any session
was begun. -/
def ss0 : SS := ⟨[prov1], none⟩

/-- A well-formed outcome payload for the wire protocol. -/
def outcomeData : String := "STATUS 0\nSTDOUT\nline out\nSTDERR"

/-- C1 counterexample: after PROVIDE has issued the first command and
before its outcome was supplied, a second dispense call is never
rejected with a protocol-misuse error: a payload shaped like an outcome
silently resumes the provider (the second command is returned), and a
payload that is no outcome crashes with the KeyError of result parsing;
no distinguished protocol-misuse rejection exists in the driver. -/
theorem claim1_misuse_counterexample :
    (dispense 3 ss0 "PROVIDE").map Prod.fst = .ok "DESC docstring\n\nCMD cmd-one" ∧
    ((dispense 3 ss0 "PROVIDE").bind (fun p => dispense 3 p.2 outcomeData)).map
      Prod.fst = .ok "cmd-two" ∧
    ((dispense 3 ss0 "PROVIDE").bind (fun p => dispense 3 p.2 "NEXT")).map
      Prod.fst = .error (.parseKey .keyNone) :=
  ⟨by rfl, by rfl, by rfl⟩

/-- C1 amended: while a command is outstanding (a generator is
suspended), dispense applies no single-in-flight guard: any non-begin
payload is interpreted as the outcome of the outstanding command; when
it fails to parse as one, dispense crashes with the parse KeyError, and
when it parses, the provider is silently resumed with it and the next
command is returned without any error. -/
theorem claim1_no_misuse_guard (fuel : Nat) (st : SS) (sess : Sess)
    (p : ProviderM) (g : PyGen) (hist : List Outcome) (data : String)
    (hsess : st.sess = some sess)
    (hprov : sess.currProv = some p)
    (hgen : sess.currGen = some (g, hist))
    (hnp : pyStartsWith data "PROVIDE" = false)
    (hnr : pyStartsWith data "REVERT" = false) :
    (∀ e, parseResult data = .error e →
      dispense (fuel + 1) st data = .error (.parseKey e)) ∧
    (∀ outc cmd, parseResult data = .ok outc → g.run (hist ++ [outc]) = some cmd →
      (dispense (fuel + 1) st data).map Prod.fst = .ok cmd) := by
  obtain ⟨pend, cp, cg, pt⟩ := sess
  simp only at hprov hgen
  subst hprov
  subst hgen
  constructor
  · intro e hpe
    simp [dispense, advanceProv, hnp, hnr, hsess, hpe]
  · intro outc cmd hpo hrun
    simp [dispense, advanceProv, hnp, hnr, hsess, hpo, hrun, Except.map]

/-- The SpaceState reached after PROVIDE issued the first command of
prov1: the generator is suspended with an empty outcome history. -/
def ss1 : SS := ⟨[prov1], some ⟨[], some prov1, some (gen1, []), Mode.provide⟩⟩

theorem claim1_no_misuse_guard_witness :
    (dispense 3 ss1 outcomeData).map Prod.fst = .ok "cmd-two" :=
  (claim1_no_misuse_guard 2 ss1 ⟨[], some prov1, some (gen1, []), Mode.provide⟩
    prov1 gen1 [] outcomeData rfl rfl rfl (by rfl) (by rfl)).2
    ⟨"0", ["line out"], []⟩ "cmd-two" (by rfl) (by rfl)

/-- C9 counterexample: the first command of a provider is framed as
DESC text, blank line, CMD command, but the command produced by
resuming the coroutine with an outcome is returned as a bare string
with no DESC or CMD tag. -/
theorem claim9_wire_framing_counterexample :
    (dispense 3 ss0 "PROVIDE").map Prod.fst = .ok "DESC docstring\n\nCMD cmd-one" ∧
    ((dispense 3 ss0 "PROVIDE").bind (fun p => dispense 3 p.2 outcomeData)).map
      Prod.fst = .ok "cmd-two" ∧
    pyStartsWith "cmd-two" "DESC " = false :=
  ⟨by rfl, by rfl, by rfl⟩

/-- C9 amended: only the first command of each provider is sent in the
DESC description, blank line, CMD command frame; every subsequent
command produced by resuming the coroutine with an outcome is sent as
the bare yielded string. -/
theorem claim9_wire_framing (fuel : Nat) (st : SS) (sess : Sess) (data : String)
    (hsess : st.sess = some sess)
    (hnp : pyStartsWith data "PROVIDE" = false)
    (hnr : pyStartsWith data "REVERT" = false) :
    (∀ p rest cmd, sess.currProv = none → sess.pending = p :: rest →
      sess.currGen = none → (p.genOf sess.ptype).run [] = some cmd →
      (dispense (fuel + 1) st data).map Prod.fst =
        .ok ("DESC " ++ p.docOf sess.ptype ++ "\n\nCMD " ++ cmd)) ∧
    (∀ p g hist outc cmd, sess.currProv = some p → sess.currGen = some (g, hist) →
      parseResult data = .ok outc → g.run (hist ++ [outc]) = some cmd →
      (dispense (fuel + 1) st data).map Prod.fst = .ok cmd) := by
  obtain ⟨pend, cp, cg, pt⟩ := sess
  constructor
  · intro p rest cmd hprov hpend hgen hrun
    simp only at hprov hpend hgen
    subst hprov
    subst hpend
    subst hgen
    simp [dispense, advanceProv, hnp, hnr, hsess, hrun, Except.map]
  · intro p g hist outc cmd hprov hgen hpo hrun
    simp only at hprov hgen
    subst hprov
    subst hgen
    simp [dispense, advanceProv, hnp, hnr, hsess, hpo, hrun, Except.map]

/-- A SpaceState with a begun session whose provider iterator has not
yet advanced: the next dispense starts prov1 and frames its first
command. -/
def ss2 : SS := ⟨[prov1], some ⟨[prov1], none, none, Mode.provide⟩⟩

theorem claim9_wire_framing_witness :
    (dispense 3 ss2 outcomeData).map Prod.fst =
      .ok "DESC docstring\n\nCMD cmd-one" ∧
    (dispense 3 ss1 outcomeData).map Prod.fst = .ok "cmd-two" :=
  ⟨(claim9_wire_framing 2 ss2 ⟨[prov1], none, none, Mode.provide⟩ outcomeData
      rfl (by rfl) (by rfl)).1 prov1 [] "cmd-one" rfl rfl rfl (by rfl),
   (claim9_wire_framing 2 ss1 ⟨[], some prov1, some (gen1, []), Mode.provide⟩
      outcomeData rfl (by rfl) (by rfl)).2 prov1 gen1 [] ⟨"0", ["line out"], []⟩
      "cmd-two" rfl rfl (by rfl) (by rfl)⟩

/-!
Part 4 models src/spaces_config/config.py (SpacesConfigParser): plain
string section names, raw option values, the KEYCRE regex scan over
values, the longest-prefix interpolation replacement, the bounded
substitution loop of _interpolate, and getuses.
-/

/-- State of a SpacesConfigParser: sections by plain string name, each
an ordered list of option name and raw value pairs. -/
structure SpCfg where
  sections : List (String × List (String × String))

/-- Section lookup. -/
def SpCfg.find? (c : SpCfg) (s : String) : Option (List (String × String)) :=
  (c.sections.find? (fun p => p.1 == s)).map Prod.snd

/-- has_section. -/
def SpCfg.hasSection (c : SpCfg) (s : String) : Bool :=
  (c.find? s).isSome

/-- The option list of a section (empty when the section is absent; the
callers below only use it for existing sections). -/
def SpCfg.optsOf (c : SpCfg) (s : String) : List (String × String) :=
  (c.find? s).getD []

/-- options: the option names of a section. -/
def SpCfg.optionNames (c : SpCfg) (s : String) : List String :=
  (c.optsOf s).map Prod.fst

/-- has_option. -/
def SpCfg.hasOption (c : SpCfg) (s o : String) : Bool :=
  (c.optsOf s).any (fun p => p.1 == o)

/-- The raw stored value of an option. -/
def SpCfg.rawOpt (c : SpCfg) (s o : String) : Option String :=
  (c.optsOf s).lookup o

/-- The errors of the spaces_config module: NoSectionError;
NoOptionError (noOptionE carries the two constructor arguments in the
order the raising site passes them: ConfigParser.get raises
NoOptionError(option, section) while _interpolation_replace raises
NoOptionError(s, o)); InterpolationMissingOptionError with its four
arguments; InterpolationDepthError; a ValueError from percent
formatting; IndexError; AttributeError from calling group on a failed
match; and exhaustion of the recursion fuel of the model (Python would
recurse unboundedly there). -/
inductive IErr where
  | noSection (s : String)
  | noOptionE (a b : String)
  | interpMissing (opt sect rawval key : String)
  | interpDepth (opt sect rawval : String)
  | valueError
  | indexError
  | attrError
  | fuelOut
deriving DecidableEq

/-- Split a character list at the first right bracket: the regex piece
bracket, then any characters other than a right bracket, then the
closing bracket.  Returns the group contents and the rest after the
closing bracket. -/
def splitRB (cs : List Char) : Option (List Char × List Char) :=
  match cs.dropWhile (fun ch => ch != ']') with
  | ']' :: after => some (cs.takeWhile (fun ch => ch != ']'), after)
  | _ => none

/-- One attempted match of the first KEYCRE alternative at the start of
the list: a left bracket, group one up to the first right bracket, a
colon, then a maximal non-empty run of non-whitespace characters as
group two.  Returns both groups and the rest after the match. -/
def bracketMatch (cs : List Char) : Option (String × String × List Char) :=
  match cs with
  | '[' :: rest =>
    match splitRB rest with
    | some (inner, after) =>
      match after with
      | ':' :: rest2 =>
        match rest2.takeWhile (fun ch => !ch.isWhitespace) with
        | [] => none
        | run =>
          some (String.mk inner, String.mk run,
                rest2.drop (rest2.takeWhile (fun ch => !ch.isWhitespace)).length)
      | _ => none
    | none => none
  | _ => none

/-- KEYCRE.sub with a callback for bracket matches: scan left to right;
at each position the bracket alternative is tried first and its match is
replaced by the callback result; otherwise the dot alternative keeps the
character (as the callback does for dot matches), and a newline, matched
by neither alternative, is also kept.  Structural fuel; each step
consumes at least one character, so the wrapper below never exhausts
it. -/
def keycreSubF (f : String → String → Except IErr String) :
    Nat → List Char → Except IErr (List Char)
  | 0, _ => .error .fuelOut
  | _, [] => .ok []
  | fuel + 1, c :: rest =>
    match bracketMatch (c :: rest) with
    | some (g1, g2, after) => do
      let r ← f g1 g2
      let tail ← keycreSubF f fuel after
      .ok (r.data ++ tail)
    | none => do
      let tail ← keycreSubF f fuel rest
      .ok (c :: tail)

/-- KEYCRE.sub over a string value. -/
def keycreSub (f : String → String → Except IErr String) (v : String) :
    Except IErr (List Char) :=
  keycreSubF f (v.data.length + 1) v.data

/-- The errors of Python percent formatting: a missing mapping key, and
a ValueError for malformed or unsupported format specifications. -/
inductive PctErr where
  | keyErr (k : String)
  | valErr
  | fuel
deriving DecidableEq

/-- Python value percent vars for the forms the configuration language
uses: a percent, left parenthesis, key, right parenthesis, s sequence is
replaced by the mapping value of the key (KeyError when absent), a
doubled percent is a literal percent, any other use of percent is a
ValueError, and text without percent passes through unchanged. -/
def percentFormatF (vars : List (String × String)) :
    Nat → List Char → Except PctErr (List Char)
  | 0, _ => .error .fuel
  | _, [] => .ok []
  | fuel + 1, c :: rest =>
    if c = '%' then
      match rest with
      | '(' :: rest2 =>
        match rest2.dropWhile (fun ch => ch != ')') with
        | ')' :: 's' :: rest3 =>
          match vars.lookup (String.mk (rest2.takeWhile (fun ch => ch != ')'))) with
          | some v => do
            let tail ← percentFormatF vars fuel rest3
            .ok (v.data ++ tail)
          | none => .error (.keyErr (String.mk (rest2.takeWhile (fun ch => ch != ')'))))
        | _ => .error .valErr
      | '%' :: rest2 => do
        let tail ← percentFormatF vars fuel rest2
        .ok ('%' :: tail)
      | _ => .error .valErr
    else do
      let tail ← percentFormatF vars fuel rest
      .ok (c :: tail)

/-- Substring containment, for the percent left-parenthesis test of
_interpolate. -/
def listContainsSub (sub cs : List Char) : Bool :=
  (List.range (cs.length + 1)).any (fun i => sub.isPrefixOf (cs.drop i))

/-- _interpolation_replace for a bracket match, parametric in the
interpolating get used for an exact option match: a missing section
fails; an exact option is resolved with the interpolating get; otherwise
the options of the section are walked in reverse sorted order and the
first that is a prefix of the requested name supplies its raw value with
the unmatched remainder of the name appended; no prefix at all raises
NoOptionError(s, o). -/
def interpReplace (g : String → String → Except IErr String) (c : SpCfg)
    (g1 g2 : String) : Except IErr String :=
  if c.hasSection g1 then
    if c.hasOption g1 g2 then g g1 g2
    else
      match (sortStrings (c.optionNames g1)).reverse.find?
          (fun p => p.data.isPrefixOf g2.data) with
      | some p =>
        .ok (String.mk (((c.rawOpt g1 p).getD "").data ++ g2.data.drop p.data.length))
      | none => .error (.noOptionE g1 g2)
  else .error (.noSection g1)

/-- MAX_INTERPOLATION_DEPTH of ConfigParser. -/
def MAXDEPTH : Nat := 10

/-- The while loop of SpacesConfigParser._interpolate: while depth
remains and the value is non-empty and holds a left bracket, apply the
KEYCRE substitution and then percent formatting against vars (a missing
percent key becomes InterpolationMissingOptionError with the option,
section, raw value and key); otherwise leave the loop. -/
def interpLoopF (g : String → String → Except IErr String) (c : SpCfg)
    (sect opt rawval : String) (vars : List (String × String)) :
    Nat → String → Except IErr String
  | 0, value => .ok value
  | depth + 1, value =>
    if !value.data.isEmpty && value.data.contains '[' then do
      let v1 ← keycreSub (interpReplace g c) value
      match percentFormatF vars (v1.length + 1) v1 with
      | .error (.keyErr k) => .error (.interpMissing opt sect rawval k)
      | .error .valErr => .error .valueError
      | .error .fuel => .error .fuelOut
      | .ok v2 => interpLoopF g c sect opt rawval vars depth (String.mk v2)
    else .ok value

/-- SpacesConfigParser._interpolate: run the bounded loop, then fail
with InterpolationDepthError exactly when the resulting value is
non-empty and still holds a percent immediately followed by a left
parenthesis; otherwise return the value, even when left brackets
remain. -/
def sInterpolate (g : String → String → Except IErr String) (c : SpCfg)
    (sect opt rawval : String) (vars : List (String × String)) :
    Except IErr String := do
  let value ← interpLoopF g c sect opt rawval vars MAXDEPTH rawval
  if !value.data.isEmpty && listContainsSub "%(".data value.data then
    .error (.interpDepth opt sect rawval)
  else .ok value

/-- ConfigParser.get on a SpacesConfigParser: resolve the section (else
NoSectionError), the raw value (else NoOptionError(option, section)),
then interpolate with vars the option dictionary of the section.  The
fuel bounds the recursion through exact-match interpolation targets,
which is unbounded in the Python source. -/
def sGetF (c : SpCfg) : Nat → String → String → Except IErr String
  | 0, _, _ => .error .fuelOut
  | fuel + 1, sect, opt =>
    match c.find? sect with
    | none => .error (.noSection sect)
    | some opts =>
      match opts.lookup opt with
      | none => .error (.noOptionE opt sect)
      | some rawval => sInterpolate (sGetF c fuel) c sect opt rawval opts

/-- gettuple: the interpolated value split on newlines, stripped, with
empty pieces removed. -/
def gettupleF (c : SpCfg) (fuel : Nat) (sect opt : String) :
    Except IErr (List String) := do
  let v ← sGetF c fuel sect opt
  .ok (((pySplit (Char.ofNat 10) v).map pyStrip).filter (fun x => !x.data.isEmpty))

/-- The bracket stripping of getuses on one declared use: drop a leading
left bracket, then look at the last character (IndexError when the
remainder is empty) and drop it when it is a right bracket. -/
def stripLead (u : String) : String :=
  if u.data.head? = some '[' then String.mk (u.data.drop 1) else u

def stripUses (u : String) : Except IErr String :=
  match (stripLead u).data.getLast? with
  | none => .error .indexError
  | some ch =>
    .ok (if ch = ']' then String.mk (stripLead u).data.dropLast else stripLead u)

/-- The loop of getuses over the declared uses: strip brackets, require
the section to exist (NoSectionError otherwise) and collect it. -/
def processUses (c : SpCfg) : List String → Except IErr (List String)
  | [] => .ok []
  | u :: rest => do
    let u1 ← stripUses u
    if c.hasSection u1 then do
      let others ← processUses c rest
      .ok (u1 :: others)
    else .error (.noSection u1)

/-- KEYCRE.match on a value: none when no alternative matches at the
very start (empty value or leading newline; group would then crash with
AttributeError), some none for a dot match (group one is None), and the
two groups for a bracket match. -/
def keycreMatchStart (v : String) : Option (Option (String × String)) :=
  match bracketMatch v.data with
  | some (g1, g2, _) => some (some (g1, g2))
  | none =>
    match v.data with
    | [] => none
    | ch :: _ => if ch = Char.ofNat 10 then none else some none

/-- The interpolation-reference loop of getuses over the raw items of
the section: only a match anchored at the start of a value is seen, only
its first group, and only when that group is non-empty; the referenced
section must exist. -/
def scanItems (c : SpCfg) : List (String × String) → Except IErr (List String)
  | [] => .ok []
  | (_, v) :: rest =>
    match keycreMatchStart v with
    | none => .error .attrError
    | some none => scanItems c rest
    | some (some (g1, _)) =>
      if g1.data.isEmpty then scanItems c rest
      else if c.hasSection g1 then do
        let others ← scanItems c rest
        .ok (g1 :: others)
      else .error (.noSection g1)

/-- getuses: the declared uses of the _uses option (a missing _uses
option is ignored; every other error propagates), followed by the
sections referenced at the start of raw item values.  The Python code
returns this accumulation as a set. -/
def getusesF (c : SpCfg) (fuel : Nat) (sect : String) : Except IErr (List String) := do
  let explicit ←
    match gettupleF c fuel sect "_uses" with
    | .ok tup => processUses c tup
    | .error (.noOptionE _ _) => .ok ([] : List String)
    | .error e => .error e
  let refs ← scanItems c (c.optsOf sect)
  .ok (explicit ++ refs)

/-- All bracket references anywhere in a value, written from the claim
wording for C5: every interpolation reference in the value, not only one
at the start (fueled structurally; the wrapper passes the length). -/
def allBracketRefsF : Nat → List Char → List String
  | 0, _ => []
  | _, [] => []
  | fuel + 1, c :: rest =>
    match bracketMatch (c :: rest) with
    | some (g1, _, after) => g1 :: allBracketRefsF fuel after
    | none => allBracketRefsF fuel rest

/-- All bracket references in a string value. -/
def allBracketRefs (v : String) : List String :=
  allBracketRefsF (v.data.length + 1) v.data

/-- The specification-side dependency contribution of interpolation:
every section referenced through interpolation anywhere in any of the
option values of the section. -/
def specInterpRefs (c : SpCfg) (sect : String) : List String :=
  ((c.optsOf sect).map (fun p => allBracketRefs p.2)).flatten

/-- The configuration refuting C5 as stated: the only option value of
section a references section b, but not at the start of the value. -/
def c5cfg : SpCfg := ⟨[("a", [("k", "x [b]:o")]), ("b", [("o", "v")])]⟩

/-- C5 counterexample: section b is referenced through interpolation
inside a value of section a (the substitution pass would resolve it),
yet getuses returns the empty set because only a reference at the very
start of a value is detected. -/
theorem claim5_getuses_counterexample :
    getusesF c5cfg 5 "a" = .ok [] ∧
    specInterpRefs c5cfg "a" = ["b"] ∧
    c5cfg.hasSection "b" = true :=
  ⟨by rfl, by rfl, by rfl⟩

/-- stripUses as a total function, equal to it whenever it succeeds. -/
def stripPure (u : String) : String :=
  match (stripLead u).data.getLast? with
  | none => stripLead u
  | some ch => if ch = ']' then String.mk (stripLead u).data.dropLast else stripLead u

/-- The single reference getuses can see in one value: a bracket match
anchored at the start whose first group is non-empty. -/
def startRefOf (v : String) : Option String :=
  match keycreMatchStart v with
  | some (some (g1, _)) => if g1.data.isEmpty then none else some g1
  | _ => none

theorem stripUses_eq_pure {u u1 : String} (h : stripUses u = .ok u1) :
    u1 = stripPure u := by
  unfold stripUses at h
  unfold stripPure
  cases hgl : (stripLead u).data.getLast? with
  | none => rw [hgl] at h; simp at h
  | some ch => rw [hgl] at h; simp at h; exact h.symm

theorem processUses_eq_map (c : SpCfg) :
    ∀ tup l, processUses c tup = .ok l → l = tup.map stripPure := by
  intro tup
  induction tup with
  | nil =>
    intro l h
    simp only [processUses] at h
    cases h
    rfl
  | cons u rest ih =>
    intro l h
    simp only [processUses, Bind.bind] at h
    cases hsu : stripUses u with
    | error e => rw [hsu] at h; simp [Except.bind] at h
    | ok u1 =>
      rw [hsu] at h
      simp only [Except.bind] at h
      by_cases hhs : c.hasSection u1
      · simp only [hhs, if_true] at h
        cases hrest : processUses c rest with
        | error e => rw [hrest] at h; simp at h
        | ok others =>
          rw [hrest] at h
          simp only [Except.bind] at h
          cases h
          rw [List.map_cons, ← stripUses_eq_pure hsu, ih others hrest]
      · simp only [hhs] at h
        simp at h

theorem scanItems_eq_filterMap (c : SpCfg) :
    ∀ its l, scanItems c its = .ok l →
      l = its.filterMap (fun p => startRefOf p.2) := by
  intro its
  induction its with
  | nil =>
    intro l h
    simp only [scanItems] at h
    cases h
    rfl
  | cons pr rest ih =>
    intro l h
    obtain ⟨o, v⟩ := pr
    simp only [scanItems] at h
    cases hm : keycreMatchStart v with
    | none => rw [hm] at h; simp at h
    | some mg =>
      rw [hm] at h
      cases mg with
      | none =>
        simp only at h
        rw [List.filterMap_cons]
        have hsr : startRefOf v = none := by unfold startRefOf; rw [hm]
        rw [hsr]
        exact ih l h
      | some gg =>
        obtain ⟨g1, g2⟩ := gg
        simp only at h
        by_cases hb : g1.data.isEmpty
        · simp only [hb, if_true] at h
          rw [List.filterMap_cons]
          have hsr : startRefOf v = none := by
            unfold startRefOf
            rw [hm]
            simp [hb]
          rw [hsr]
          exact ih l h
        · simp only [hb, if_false] at h
          by_cases hhs : c.hasSection g1
          · simp only [hhs, if_true, Bind.bind, Except.bind] at h
            cases hrest : scanItems c rest with
            | error e => rw [hrest] at h; simp at h
            | ok others =>
              rw [hrest] at h
              simp only at h
              cases h
              rw [List.filterMap_cons]
              have hsr : startRefOf v = some g1 := by
                unfold startRefOf
                rw [hm]
                simp [hb]
              rw [hsr]
              rw [ih others hrest]
          · simp only [hhs] at h
            simp at h

/-- C5 amended: when getuses succeeds, its result is exactly the
declared uses of the _uses option (brackets stripped) together with, for
each option value, the one interpolation reference anchored at the very
start of the value; references elsewhere in a value, and second or later
references, contribute nothing. -/
theorem claim5_getuses_start_only (c : SpCfg) (fuel : Nat) (sect : String)
    (l : List String) (h : getusesF c fuel sect = .ok l) :
    l = (match gettupleF c fuel sect "_uses" with
         | .ok tup => tup.map stripPure
         | .error _ => []) ++
        (c.optsOf sect).filterMap (fun p => startRefOf p.2) := by
  simp only [getusesF, Bind.bind] at h
  cases hg : gettupleF c fuel sect "_uses" with
  | ok tup =>
    rw [hg] at h
    simp only at h
    cases hp : processUses c tup with
    | error e => rw [hp] at h; simp [Except.bind] at h
    | ok ex =>
      rw [hp] at h
      simp only [Except.bind] at h
      cases hs : scanItems c (c.optsOf sect) with
      | error e => rw [hs] at h; simp at h
      | ok refs =>
        rw [hs] at h
        simp only at h
        cases h
        have h1 := processUses_eq_map c tup ex hp
        have h2 := scanItems_eq_filterMap c _ refs hs
        subst h1
        subst h2
        rfl
  | error e =>
    rw [hg] at h
    cases e with
    | noOptionE a b =>
      simp only [Except.bind] at h
      cases hs : scanItems c (c.optsOf sect) with
      | error e2 => rw [hs] at h; simp at h
      | ok refs =>
        rw [hs] at h
        simp only at h
        cases h
        have h2 := scanItems_eq_filterMap c _ refs hs
        subst h2
        rfl
    | noSection s => simp [Except.bind] at h
    | interpMissing a b cc d => simp [Except.bind] at h
    | interpDepth a b cc => simp [Except.bind] at h
    | valueError => simp [Except.bind] at h
    | indexError => simp [Except.bind] at h
    | attrError => simp [Except.bind] at h
    | fuelOut => simp [Except.bind] at h

/-- The configuration for the C5 witness: a declared use plus a
reference at the start of a value. -/
def c5cfg2 : SpCfg :=
  ⟨[("a", [("_uses", "[b]"), ("k", "[b]:o tail")]), ("b", [("o", "v")])]⟩

theorem claim5_getuses_start_only_witness :
    getusesF c5cfg2 6 "a" = .ok ["b", "b"] ∧
    (["b", "b"] : List String) =
      (match gettupleF c5cfg2 6 "a" "_uses" with
       | .ok tup => tup.map stripPure
       | .error _ => []) ++
      (c5cfg2.optsOf "a").filterMap (fun p => startRefOf p.2) :=
  ⟨by rfl, claim5_getuses_start_only c5cfg2 6 "a" ["b", "b"] (by rfl)⟩

theorem charListLtB_iff_lex :
    ∀ a b : List Char, charListLtB a b = true ↔ List.Lex (· < ·) a b := by
  intro a
  induction a with
  | nil =>
    intro b
    cases b with
    | nil =>
      simp only [charListLtB, Bool.false_eq_true, false_iff]
      exact List.Lex.not_nil_right _ _
    | cons c cs =>
      simp only [charListLtB, true_iff]
      exact List.Lex.nil
  | cons x xs ih =>
    intro b
    cases b with
    | nil =>
      simp only [charListLtB, Bool.false_eq_true, false_iff]
      exact List.Lex.not_nil_right _ _
    | cons y ys =>
      simp only [charListLtB]
      by_cases hxy : x < y
      · simp only [hxy, if_true, true_iff]
        exact List.Lex.rel hxy
      · by_cases hyx : y < x
        · simp only [hxy, hyx, if_true, if_false, Bool.false_eq_true, false_iff]
          intro hlex
          cases hlex with
          | rel h => exact hxy h
          | cons h => exact lt_irrefl _ hyx
        · have hxyeq : x = y := le_antisymm (not_lt.mp hyx) (not_lt.mp hxy)
          subst hxyeq
          simp only [hxy, if_false, lt_irrefl]
          rw [List.Lex.cons_iff]
          exact ih ys

theorem strLe_iff (a b : String) : strLe a b ↔ a ≤ b := by
  have h1 : charListLtB b.data a.data = true ↔ b < a := by
    rw [charListLtB_iff_lex, String.lt_iff_toList_lt]
    exact Iff.rfl
  unfold strLe strLeB
  rw [Bool.not_eq_true', Bool.eq_false_iff]
  rw [ne_eq, h1]
  exact not_lt

instance : IsTotal String strLe :=
  ⟨fun a b => by
    rw [strLe_iff, strLe_iff]
    exact le_total a b⟩

instance : IsTrans String strLe :=
  ⟨fun a b c hab hbc => by
    rw [strLe_iff] at hab hbc ⊢
    exact le_trans hab hbc⟩

theorem lexOfStrictPre {p q : List Char} (hpq : p <+: q) (hne : p ≠ q) :
    List.Lex (· < ·) p q := by
  obtain ⟨t, rfl⟩ := hpq
  cases t with
  | nil => simp at hne
  | cons c t2 =>
    have hn : List.Lex (· < ·) ([] : List Char) (c :: t2) := List.Lex.nil
    have h2 := List.Lex.append_left (· < ·) hn p
    simpa using h2

theorem lengthLeOfPreGe {p q o : List Char}
    (hp : p <+: o) (hq : q <+: o) (hle : charListLtB p q = false) :
    q.length ≤ p.length := by
  by_contra hlen
  push_neg at hlen
  have hpq : p <+: q := List.prefix_of_prefix_length_le hp hq (le_of_lt hlen)
  have hne : p ≠ q := by
    intro he
    rw [he] at hlen
    exact lt_irrefl _ hlen
  have hlex := (charListLtB_iff_lex p q).mpr (lexOfStrictPre hpq hne)
  rw [hlex] at hle
  cases hle

theorem find_first_is_longest {o : String} :
    ∀ (l : List String), l.Pairwise (fun a b => strLe b a) →
      ∀ p, l.find? (fun x => x.data.isPrefixOf o.data) = some p →
        p ∈ l ∧ p.data.isPrefixOf o.data = true ∧
        ∀ q ∈ l, q.data.isPrefixOf o.data = true →
          q.data.length ≤ p.data.length := by
  intro l
  induction l with
  | nil => intro _ p hf; simp [List.find?] at hf
  | cons x xs ih =>
    intro hpw p hf
    rw [List.pairwise_cons] at hpw
    by_cases hx : x.data.isPrefixOf o.data = true
    · simp only [List.find?, hx] at hf
      cases hf
      refine ⟨List.mem_cons_self _ _, hx, ?_⟩
      intro q hq hqpre
      cases List.mem_cons.mp hq with
      | inl heq => subst heq; exact le_refl _
      | inr hqs =>
        have hle : strLe q x := hpw.1 q hqs
        unfold strLe strLeB at hle
        rw [Bool.not_eq_true'] at hle
        have hxp : x.data <+: o.data := by
          have := hx
          rw [ List.isPrefixOf_iff_prefix] at this
          exact this
        have hqp : q.data <+: o.data := by
          have := hqpre
          rw [ List.isPrefixOf_iff_prefix] at this
          exact this
        exact lengthLeOfPreGe hxp hqp hle
    · rw [Bool.not_eq_true] at hx
      simp only [List.find?, hx] at hf
      have hres := ih hpw.2 p hf
      refine ⟨List.mem_cons_of_mem _ hres.1, hres.2.1, ?_⟩
      intro q hq hqpre
      cases List.mem_cons.mp hq with
      | inl heq => subst heq; rw [hqpre] at hx; cases hx
      | inr hqs => exact hres.2.2 q hqs hqpre

theorem sortStrings_rev_pairwise (l : List String) :
    (sortStrings l).reverse.Pairwise (fun a b => strLe b a) := by
  rw [List.pairwise_reverse]
  exact List.sorted_insertionSort strLe l

theorem mem_sortStrings_rev {l : List String} {q : String} :
    q ∈ (sortStrings l).reverse ↔ q ∈ l := by
  rw [List.mem_reverse]
  exact (List.perm_insertionSort strLe l).mem_iff

/-- C6: when the referenced section exists and lacks the exact option,
the replacement substitutes the raw value of an option that is a prefix
of the requested name and of maximal length among all such prefixes,
with the unmatched remainder of the requested name appended verbatim;
when no option is a prefix, it fails with NoOptionError.  The statement
is parametric in the interpolating get used by the exact-match branch,
which is not reached here. -/
theorem claim6_longest_prefix (g : String → String → Except IErr String)
    (c : SpCfg) (s o : String)
    (hs : c.hasSection s = true) (ho : c.hasOption s o = false) :
    (∃ p, p ∈ c.optionNames s ∧ p.data.isPrefixOf o.data = true ∧
      (∀ q ∈ c.optionNames s, q.data.isPrefixOf o.data = true →
        q.data.length ≤ p.data.length) ∧
      interpReplace g c s o =
        .ok (String.mk (((c.rawOpt s p).getD "").data ++
          o.data.drop p.data.length))) ∨
    ((∀ q ∈ c.optionNames s, q.data.isPrefixOf o.data = false) ∧
      interpReplace g c s o = .error (.noOptionE s o)) := by
  unfold interpReplace
  rw [if_pos hs, if_neg (by simp [ho])]
  cases hf : (sortStrings (c.optionNames s)).reverse.find?
      (fun p => p.data.isPrefixOf o.data) with
  | some p =>
    left
    have hres := find_first_is_longest _ (sortStrings_rev_pairwise _) p hf
    refine ⟨p, mem_sortStrings_rev.mp hres.1, hres.2.1, ?_, rfl⟩
    intro q hq hqpre
    exact hres.2.2 q (mem_sortStrings_rev.mpr hq) hqpre
  | none =>
    right
    refine ⟨?_, rfl⟩
    intro q hq
    have hnone := List.find?_eq_none.mp hf q (mem_sortStrings_rev.mpr hq)
    cases hb : q.data.isPrefixOf o.data with
    | false => rfl
    | true => exact absurd hb hnone

/-- The configuration of the C6 witness: section s has options ab and a,
and the reference asks for abc. -/
def c6cfg : SpCfg := ⟨[("s", [("ab", "VAL"), ("a", "W")])]⟩

theorem claim6_longest_prefix_witness :
    c6cfg.hasSection "s" = true ∧ c6cfg.hasOption "s" "abc" = false ∧
    interpReplace (fun _ _ => .error .fuelOut) c6cfg "s" "abc" = .ok "VALc" ∧
    ((∃ p, p ∈ c6cfg.optionNames "s" ∧ p.data.isPrefixOf "abc".data = true ∧
      (∀ q ∈ c6cfg.optionNames "s", q.data.isPrefixOf "abc".data = true →
        q.data.length ≤ p.data.length) ∧
      interpReplace (fun _ _ => .error .fuelOut) c6cfg "s" "abc" =
        .ok (String.mk (((c6cfg.rawOpt "s" p).getD "").data ++
          "abc".data.drop p.data.length))) ∨
    ((∀ q ∈ c6cfg.optionNames "s", q.data.isPrefixOf "abc".data = false) ∧
      interpReplace (fun _ _ => .error .fuelOut) c6cfg "s" "abc" =
        .error (.noOptionE "s" "abc"))) :=
  ⟨by rfl, by rfl, by rfl,
   claim6_longest_prefix (fun _ _ => .error .fuelOut) c6cfg "s" "abc"
     (by rfl) (by rfl)⟩

/-- The configuration refuting C7 as stated: in section q the raw
values of a and b reference each other through the longest-prefix
fallback, so every substitution round leaves a bracketed reference in
the value. -/
def c7cfg : SpCfg := ⟨[("q", [("a", "[q]:b1"), ("b", "[q]:a1")])]⟩

/-- The vars dictionary ConfigParser.get passes for section q. -/
def c7vars : List (String × String) := [("a", "[q]:b1"), ("b", "[q]:a1")]

/-- C7 counterexample: after the depth bound is exhausted the value
still holds a bracketed reference, yet _interpolate returns the
partially substituted string instead of failing with a depth-exceeded
error: its final check looks for a percent reference, not a bracketed
one. -/
theorem claim7_depth_counterexample :
    sInterpolate (sGetF c7cfg 5) c7cfg "q" "a" "[q]:b1" c7vars =
      .ok "[q]:b11111111111" ∧
    "[q]:b11111111111".data.contains '[' = true :=
  ⟨by rfl, by rfl⟩

/-- C7 amended: the loop substitutes bracketed references until none
remain or the depth bound is exhausted, and the depth-exceeded error is
raised only when a percent-style reference (a percent directly followed
by a left parenthesis) remains in the value after the loop; a value in
which only bracketed references remain is returned partially
substituted.  Hence every successful result is free of percent
references, while the counterexample shows brackets may survive. -/
theorem claim7_depth_error_pct_only (g : String → String → Except IErr String)
    (c : SpCfg) (sect opt rawval : String) (vars : List (String × String))
    (v : String) (h : sInterpolate g c sect opt rawval vars = .ok v) :
    listContainsSub "%(".data v.data = false := by
  unfold sInterpolate at h
  simp only [Bind.bind] at h
  cases hl : interpLoopF g c sect opt rawval vars MAXDEPTH rawval with
  | error e => rw [hl] at h; simp [Except.bind] at h
  | ok value =>
    rw [hl] at h
    simp only [Except.bind] at h
    by_cases hc : (!value.data.isEmpty && listContainsSub "%(".data value.data) = true
    · rw [if_pos hc] at h
      cases h
    · rw [if_neg hc] at h
      cases h
      rw [Bool.and_eq_true, not_and_or] at hc
      cases hc with
      | inl hemp =>
        have hval : v.data.isEmpty = true := by
          cases hb : v.data.isEmpty with
          | true => rfl
          | false => rw [hb] at hemp; simp at hemp
        have hnil : v.data = [] := by
          cases hd : v.data with
          | nil => rfl
          | cons a l => rw [hd] at hval; simp [List.isEmpty] at hval
        rw [hnil]
        rfl
      | inr hsub =>
        rw [Bool.not_eq_true] at hsub
        exact hsub

theorem claim7_depth_error_pct_only_witness :
    sInterpolate (sGetF c7cfg 5) c7cfg "q" "a" "[q]:b1" c7vars =
      .ok "[q]:b11111111111" ∧
    listContainsSub "%(".data "[q]:b11111111111".data = false :=
  ⟨by rfl,
   claim7_depth_error_pct_only (sGetF c7cfg 5) c7cfg "q" "a" "[q]:b1" c7vars
     "[q]:b11111111111" (by rfl)⟩
